import Mathlib

/-!
Verification of the chest-loot injection core of `Dorios-RPG-Core`
(file `ChestLootInjector` and its module-level registries).

The JavaScript source is shallowly embedded as follows:

* JS numbers used as world coordinates are `Int`; `Math.floor(x / 256)`
  on integer input is `Int.fdiv x 256`.
* JS chance values (floats) are modelled as rationals `ℚ`; all the claims
  under consideration are about which entries are kept, compared or
  summed, not about rounding of binary floating point.
* Template strings such as `${x},${y},${z}` are modelled with an explicit
  decimal rendering `intStr` (digits base 10, with a leading `-` for
  negative values), mirroring JS integer-to-string conversion.
* JS `Map` objects (insertion ordered, `set` overwrites in place) and
  plain objects used as dictionaries are modelled as association lists
  `List (String × α)` with `jsMapGet` / `jsMapSet`.
* The world's dynamic-property store is an association list from property
  name to the stored regional chest set.  The source stores
  `JSON.stringify` of an object whose keys are position strings and whose
  values are always the literal `1`; since only this module writes these
  keys and the JSON round trip is the identity on them, the store holds
  the decoded set (a `List String` of present position keys) directly.
  `setDynamicProperty k undefined` deletes the key.
* Truthiness: a JS object/array is always truthy, `undefined` is falsy,
  and a string is truthy iff nonempty.  Optional fields are `Option`;
  where the source guards on a possibly-empty string
  (`cond.dimension && ...`) the model keeps the explicit `≠ ""` test.
* `Math.random()` draws are an ambient sequence `Nat → ℚ`, one value per
  roll in iteration order; the chest inventory is the list of items
  added to it so far.
-/

namespace DoriosRPG

/-- Integer block position, as used by `block.location`. -/
structure Pos where
  x : Int
  y : Int
  z : Int
deriving DecidableEq

/-- Little-endian base-10 digits of `n`, computed with explicit fuel
(the fuel is always instantiated with `n` itself, which suffices). -/
def digitsLE : Nat → Nat → List Nat
  | 0, _ => []
  | _ + 1, 0 => []
  | fuel + 1, n + 1 => (n + 1) % 10 :: digitsLE fuel ((n + 1) / 10)

/-- Value of a little-endian digit list. -/
def valLE : List Nat → Nat
  | [] => 0
  | d :: ds => d + 10 * valLE ds

/-- Decimal rendering of a natural number, as JS renders it in a template
string. -/
def decStr (n : Nat) : String :=
  if n = 0 then "0" else String.mk (((digitsLE n n).map Nat.digitChar).reverse)

/-- Decimal rendering of an integer, as JS renders it in a template
string. -/
def intStr : Int → String
  | Int.ofNat m => decStr m
  | Int.negSucc m => "-" ++ decStr (m + 1)

/-- Lookup in a JS `Map` / dictionary-style object keyed by strings. -/
def jsMapGet {α : Type} : List (String × α) → String → Option α
  | [], _ => none
  | (k', v) :: rest, k => if k' = k then some v else jsMapGet rest k

/-- Replace the value stored under an existing key, keeping its position
(the behaviour of `map.set` on a present key). -/
def jsMapReplace {α : Type} : List (String × α) → String → α → List (String × α)
  | [], _, _ => []
  | (k', v') :: rest, k, v =>
      if k' = k then (k, v) :: jsMapReplace rest k v
      else (k', v') :: jsMapReplace rest k v

/-- `map.set k v` / `obj[k] = v`: overwrite in place when the key is
present, append otherwise. -/
def jsMapSet {α : Type} (m : List (String × α)) (k : String) (v : α) :
    List (String × α) :=
  if (jsMapGet m k).isSome then jsMapReplace m k v else m ++ [(k, v)]

/-- Membership test on a decoded regional chest set (the truthiness test
`set[key]`, all stored values being the literal `1`). -/
def csContains : List String → String → Bool
  | [], _ => false
  | x :: rest, k => if x = k then true else csContains rest k

/-- `set[key] = 1` on a decoded regional chest set. -/
def csInsert (s : List String) (k : String) : List String :=
  if csContains s k then s else s ++ [k]

/-- Boolean prefix test on character lists. -/
def listIsPre : List Char → List Char → Bool
  | [], _ => true
  | _ :: _, [] => false
  | a :: as, b :: bs => if a = b then listIsPre as bs else false

/-- Model of JS `s.startsWith p`. -/
def strStartsWith (s p : String) : Bool := listIsPre p.data s.data

/-- The world's dynamic-property store, restricted to the values this
module reads and writes: decoded regional chest sets. -/
abbrev Store := List (String × List String)

/-- `world.setDynamicProperty id undefined`: delete a property. -/
def delProp (w : Store) (k : String) : Store :=
  w.filter (fun p => !(p.1 = k : Bool))

/-- `ChestLootInjector.PLACED_CHESTS_KEY`. -/
def PLACED_CHESTS_KEY : String := "dorios:placed_chests"

/-- `ChestLootInjector.OPENED_CHESTS_KEY`. -/
def OPENED_CHESTS_KEY : String := "dorios:opened_chests"

/-- `ChestLootInjector.REGION_SIZE`. -/
def REGION_SIZE : Int := 256

/-- `ChestLootInjector.posKey`. -/
def posKey (pos : Pos) : String :=
  intStr pos.x ++ "," ++ intStr pos.y ++ "," ++ intStr pos.z

/-- `ChestLootInjector.regionKey`. -/
def regionKey (pos : Pos) : String :=
  intStr (pos.x.fdiv REGION_SIZE) ++ "," ++ intStr (pos.z.fdiv REGION_SIZE)

/-- `ChestLootInjector.regionPropertyKey`. -/
def regionPropertyKey (baseKey : String) (pos : Pos) : String :=
  baseKey ++ ":" ++ regionKey pos

/-- `ChestLootInjector.getChestSet`: read and decode a regional chest
set, the empty set when the property is absent. -/
def getChestSet (w : Store) (baseKey : String) (pos : Pos) : List String :=
  (jsMapGet w (regionPropertyKey baseKey pos)).getD []

/-- `ChestLootInjector.saveChestSet`: encode and write back a regional
chest set. -/
def saveChestSet (w : Store) (baseKey : String) (pos : Pos)
    (set : List String) : Store :=
  jsMapSet w (regionPropertyKey baseKey pos) set

/-- `ChestLootInjector.canInjectChest`. -/
def canInjectChest (w : Store) (pos : Pos) : Bool :=
  let key := posKey pos
  let placed := getChestSet w PLACED_CHESTS_KEY pos
  if csContains placed key then false
  else
    let opened := getChestSet w OPENED_CHESTS_KEY pos
    if csContains opened key then false
    else true

/-- `ChestLootInjector.markChestOpened`. -/
def markChestOpened (w : Store) (pos : Pos) : Store :=
  let key := posKey pos
  let opened := getChestSet w OPENED_CHESTS_KEY pos
  saveChestSet w OPENED_CHESTS_KEY pos (csInsert opened key)

/-- `ChestLootInjector.markChestPlaced`. -/
def markChestPlaced (w : Store) (pos : Pos) : Store :=
  let key := posKey pos
  let placed := getChestSet w PLACED_CHESTS_KEY pos
  saveChestSet w PLACED_CHESTS_KEY pos (csInsert placed key)

/-- `ChestLootInjector.resetChestTracking`: iterate all dynamic property
ids and delete every one whose name starts with either tracking key. -/
def resetChestTracking (w : Store) : Store :=
  (w.map (·.1)).foldl
    (fun acc id =>
      if strStartsWith id PLACED_CHESTS_KEY || strStartsWith id OPENED_CHESTS_KEY
      then delProp acc id else acc)
    w

/-- Eligibility conditions carried by a structure loot entry.  A missing
field is `none`. -/
structure LootConditions where
  dimension : Option String := none
  biomes : Option (List String) := none
deriving DecidableEq

/-- One loot entry `{item, chance, conditions?}`. -/
structure LootEntry where
  item : String
  chance : ℚ
  conditions : Option LootConditions := none
deriving DecidableEq

/-- A structure detection requirement: the source stores either an array
of block ids (existence semantics) or an object mapping block id to a
minimum count (threshold semantics). -/
inductive Requirement where
  | existence (blocks : List String)
  | counts (reqs : List (String × Nat))
deriving DecidableEq

/-- `ChestLootInjector.registerStructure`: silently ignore an id that is
already registered, otherwise append the definition. -/
def registerStructure (structs : List (String × Requirement)) (id : String)
    (definition : Requirement) : List (String × Requirement) :=
  match jsMapGet structs id with
  | some _ => structs
  | none => jsMapSet structs id definition

/-- `map.set(entry.item, entry)` — one step of loading a stored table
into the merge map. -/
def lootMapInsert (m : List (String × LootEntry)) (e : LootEntry) :
    List (String × LootEntry) :=
  jsMapSet m e.item e

/-- The first loop of the registration merge: load every existing entry
into a `Map` keyed by item. -/
def buildLootMap (existing : List LootEntry) : List (String × LootEntry) :=
  existing.foldl lootMapInsert []

/-- The second loop of the registration merge: an incoming entry
replaces the mapped entry for its item exactly when its chance is
strictly higher (or when the item is not yet mapped). -/
def mergeLootStep (m : List (String × LootEntry)) (e : LootEntry) :
    List (String × LootEntry) :=
  match jsMapGet m e.item with
  | none => jsMapSet m e.item e
  | some prev => if e.chance > prev.chance then jsMapSet m e.item e else m

/-- The map-based merge shared verbatim by `registerStructureLoot` and
`registerBiomeLoot`: existing entries first, then the incoming entries,
then `Array.from(map.values())`. -/
def mergeRegisteredLoot (existing loot : List LootEntry) : List LootEntry :=
  (loot.foldl mergeLootStep (buildLootMap existing)).map (·.2)

/-- `ChestLootInjector.registerStructureLoot`, acting on the module-level
`structureLoot` table. -/
def registerStructureLoot (table : List (String × List LootEntry))
    (structureId : String) (loot : List LootEntry) :
    List (String × List LootEntry) :=
  match jsMapGet table structureId with
  | none => jsMapSet table structureId loot
  | some existing => jsMapSet table structureId (mergeRegisteredLoot existing loot)

/-- `ChestLootInjector.registerBiomeLoot`, acting on the module-level
`biomeLoot` table; its body is the same as `registerStructureLoot`'s. -/
def registerBiomeLoot (table : List (String × List LootEntry))
    (biomeId : String) (loot : List LootEntry) :
    List (String × List LootEntry) :=
  match jsMapGet table biomeId with
  | none => jsMapSet table biomeId loot
  | some existing => jsMapSet table biomeId (mergeRegisteredLoot existing loot)

/-- Result of the single volume scan in `detectNearbyStructure`: the
per-block-type counter map and the chest counter. -/
structure ScanResult where
  blockCount : List (String × Nat)
  chestCount : Nat
deriving DecidableEq

/-- The loop offsets `-radius, ..., radius`. -/
def offsets (radius : Nat) : List Int :=
  (List.range (2 * radius + 1)).map (fun i => (i : Int) - radius)

/-- Processing of one scanned cell: skip a missing block, otherwise bump
its per-type counter and, for `minecraft:chest`, the chest counter. -/
def scanStep (blockAt : Pos → Option String) (origin : Pos)
    (acc : ScanResult) (dx dy dz : Int) : ScanResult :=
  match blockAt ⟨origin.x + dx, origin.y + dy, origin.z + dz⟩ with
  | none => acc
  | some id =>
      { blockCount :=
          jsMapSet acc.blockCount id (((jsMapGet acc.blockCount id).getD 0) + 1)
        chestCount :=
          if id = "minecraft:chest" then acc.chestCount + 1 else acc.chestCount }

/-- The triple scan loop of `detectNearbyStructure`. -/
def scanArea (blockAt : Pos → Option String) (origin : Pos) (radius : Nat) :
    ScanResult :=
  (offsets radius).foldl
    (fun acc dx =>
      (offsets radius).foldl
        (fun acc dy =>
          (offsets radius).foldl
            (fun acc dz => scanStep blockAt origin acc dx dy dz)
            acc)
        acc)
    ⟨[], 0⟩

/-- Requirement matching against the scanned counters: an array matches
when some listed block id has a counter entry (`blockCount.has`), an
object when every listed block id's counter (defaulting to 0) reaches
its required amount. -/
def matchRequirement (blockCount : List (String × Nat)) :
    Requirement → Bool
  | Requirement.existence blocks =>
      blocks.any (fun blockId => (jsMapGet blockCount blockId).isSome)
  | Requirement.counts reqs =>
      reqs.all (fun p => !((jsMapGet blockCount p.1).getD 0 < p.2 : Bool))

/-- The registration-order iteration over `structures`, returning the
first match or `"default"`. -/
def firstMatch (structs : List (String × Requirement))
    (blockCount : List (String × Nat)) : String :=
  match structs with
  | [] => "default"
  | (structureId, requirement) :: rest =>
      if matchRequirement blockCount requirement then structureId
      else firstMatch rest blockCount

/-- `ChestLootInjector.detectNearbyStructure` (the source defaults
`radius` to 6; `resolve` uses that default). -/
def detectNearbyStructure (blockAt : Pos → Option String) (origin : Pos)
    (radius : Nat) (structs : List (String × Requirement)) : String :=
  let s := scanArea blockAt origin radius
  if 6 ≤ s.chestCount then "chest_cluster"
  else firstMatch structs s.blockCount

/-- The `{biomeId, dimensionId}` context passed to `mergeLootTables`. -/
structure MergeContext where
  biomeId : String
  dimensionId : String
deriving DecidableEq

/-- The two `continue` guards of the structure layer of
`mergeLootTables`.  `cond.dimension && cond.dimension !== ctx.dimensionId`
skips only for a truthy (nonempty) dimension string; `cond.biomes` is an
array and is always truthy when present. -/
def condSkip (cond : LootConditions) (ctx : MergeContext) : Bool :=
  (match cond.dimension with
   | some d => !(d = "" : Bool) && !(d = ctx.dimensionId : Bool)
   | none => false) ||
  (match cond.biomes with
   | some bs => !(bs.contains ctx.biomeId)
   | none => false)

/-- Whether a structure loot entry is skipped by `mergeLootTables` for a
given context (`entry.conditions` absent means never skipped). -/
def entrySkipped (e : LootEntry) (ctx : MergeContext) : Bool :=
  match e.conditions with
  | none => false
  | some cond => condSkip cond ctx

/-- Accumulation of one loot entry into the cumulative map:
`finalLoot.set(item, (finalLoot.get(item) ?? 0) + chance)`. -/
def accumulateEntry (m : List (String × ℚ)) (e : LootEntry) :
    List (String × ℚ) :=
  jsMapSet m e.item (((jsMapGet m e.item).getD 0) + e.chance)

/-- `ChestLootInjector.mergeLootTables`. -/
def mergeLootTables (biomeTable structureTable : Option (List LootEntry))
    (context : MergeContext) : List (String × ℚ) :=
  let finalLoot : List (String × ℚ) :=
    match biomeTable with
    | none => []
    | some t => t.foldl accumulateEntry []
  match structureTable with
  | none => finalLoot
  | some t =>
      t.foldl
        (fun m e => if entrySkipped e context then m else accumulateEntry m e)
        finalLoot

/-- The roll loop of `injectLoot`: one `Math.random()` draw per entry in
map order, adding one unit of the item when the draw is `≤` the chance. -/
def rollLoot : List (String × ℚ) → (Nat → ℚ) → Nat → List String →
    List String
  | [], _, _, inv => inv
  | (itemId, chance) :: rest, rng, k, inv =>
      rollLoot rest rng (k + 1)
        (if rng k ≤ chance then inv ++ [itemId] else inv)

/-- `ChestLootInjector.injectLoot`: no-op on an empty table or a target
without an inventory container. -/
def injectLoot (lootTable : List (String × ℚ)) (hasContainer : Bool)
    (rng : Nat → ℚ) (inv : List String) : List String :=
  if lootTable.length = 0 then inv
  else if !hasContainer then inv
  else rollLoot lootTable rng 0 inv

/-- The hosting environment around one target block: block lookup and
biome lookup in its dimension, the dimension id, and whether the block
exposes an inventory container. -/
structure Env where
  blockAt : Pos → Option String
  biomeAt : Pos → String
  dimId : String
  hasContainer : Bool

/-- The module-level registries `structures`, `structureLoot`,
`biomeLoot`. -/
structure Registry where
  structures : List (String × Requirement)
  structureLoot : List (String × List LootEntry)
  biomeLoot : List (String × List LootEntry)

/-- The mutable world state touched by `resolve`: the dynamic-property
store and the target chest's inventory (as the list of items added). -/
structure WorldState where
  props : Store
  inv : List String
deriving DecidableEq

/-- `ChestLootInjector.resolve`. -/
def resolve (env : Env) (reg : Registry) (pos : Pos) (rng : Nat → ℚ)
    (st : WorldState) : WorldState :=
  if !canInjectChest st.props pos then st
  else
    let dimensionId := env.dimId
    let biomeId := env.biomeAt pos
    let structureId := detectNearbyStructure env.blockAt pos 6 reg.structures
    let biomeTable := jsMapGet reg.biomeLoot biomeId
    let structureTable := jsMapGet reg.structureLoot structureId
    let finalLoot := mergeLootTables biomeTable structureTable
      ⟨biomeId, dimensionId⟩
    let props' := markChestOpened st.props pos
    if finalLoot.length = 0 then ⟨props', st.inv⟩
    else ⟨props', injectLoot finalLoot env.hasContainer rng st.inv⟩

/-- Claim-side satisfaction of a requirement, following the claim's
wording: a list requirement is satisfied when any listed block type has
count at least 1, a mapping requirement when every listed block type's
count meets its minimum. -/
def specSatisfies (blockCount : List (String × Nat)) : Requirement → Bool
  | Requirement.existence blocks =>
      blocks.any (fun blockId => (1 ≤ (jsMapGet blockCount blockId).getD 0 : Bool))
  | Requirement.counts reqs =>
      reqs.all (fun p => (p.2 ≤ (jsMapGet blockCount p.1).getD 0 : Bool))

/-- Claim-side classification, following the claim's wording: chest
count at least 6 gives `"chest_cluster"` regardless of requirements,
otherwise the first registered structure whose requirement is satisfied,
otherwise `"default"`. -/
def specClassify (structs : List (String × Requirement)) (s : ScanResult) :
    String :=
  if 6 ≤ s.chestCount then "chest_cluster"
  else ((structs.find? (fun p => specSatisfies s.blockCount p.2)).map (·.1)).getD
    "default"

/-- The skip predicate exactly as claim C4 words it: skipped iff the
entry has a `conditions.dimension` differing from the context's, or a
`conditions.biomes` list not containing the context's biome. -/
def c4OrigSkip (e : LootEntry) (ctx : MergeContext) : Bool :=
  match e.conditions with
  | none => false
  | some cond =>
      (match cond.dimension with
       | some d => !(d = ctx.dimensionId : Bool)
       | none => false) ||
      (match cond.biomes with
       | some bs => !(bs.contains ctx.biomeId)
       | none => false)

/-- The skip predicate of the amended claim C4: as `c4OrigSkip`, but a
dimension condition only applies when the stored dimension string is
nonempty (matching JS truthiness of `cond.dimension`). -/
def c4AmendedSkip (e : LootEntry) (ctx : MergeContext) : Bool :=
  match e.conditions with
  | none => false
  | some cond =>
      (match cond.dimension with
       | some d => !(d = "" : Bool) && !(d = ctx.dimensionId : Bool)
       | none => false) ||
      (match cond.biomes with
       | some bs => !(bs.contains ctx.biomeId)
       | none => false)

/-- Cumulative chance the resolved table assigns to an item (0 when the
item is absent). -/
def resolvedChance (m : List (String × ℚ)) (item : String) : ℚ :=
  (jsMapGet m item).getD 0

/-- Claim-side resolved chance for an item, parameterised by the skip
predicate: the sum of the chances of all biome entries for the item plus
the chances of all structure entries for the item that the predicate
does not skip. -/
def specResolvedChance (skip : LootEntry → MergeContext → Bool)
    (biomeTable structureTable : Option (List LootEntry))
    (ctx : MergeContext) (item : String) : ℚ :=
  ((((biomeTable.getD []).filter (fun e => (e.item = item : Bool))).map
      (·.chance)).sum)
  + ((((structureTable.getD []).filter
      (fun e => (e.item = item : Bool) && !(skip e ctx))).map (·.chance)).sum)

/-- At most one entry per item identifier. -/
def itemsNodup (l : List LootEntry) : Prop := (l.map (·.item)).Nodup

/-- One registration step of claim C2's keep-the-better-entry rule:
a later entry for the same item replaces the current one exactly when
its chance is strictly higher (ties keep the existing entry). -/
def combineReg (acc : Option LootEntry) (f : LootEntry) : Option LootEntry :=
  match acc with
  | none => some f
  | some e => if f.chance > e.chance then some f else some e

/-- Claim-side result of a sequence of registrations of entries for one
item: fold the keep-the-better-entry rule over them in order. -/
def regFold (es : List LootEntry) : Option LootEntry := es.foldl combineReg none

/-- The (unique, when items are distinct) entry of a loot list for an
item identifier. -/
def findItem (l : List LootEntry) (item : String) : Option LootEntry :=
  l.find? (fun e => (e.item = item : Bool))

/-- `combineReg` lifted to an optional incoming entry. -/
def combineOpt (acc : Option LootEntry) : Option LootEntry → Option LootEntry
  | none => acc
  | some f => combineReg acc f

/-- Among a sequence of registration calls, the entries registered for a
given table id and item identifier, in call order. -/
def callEntries (calls : List (String × List LootEntry)) (id item : String) :
    List LootEntry :=
  (calls.filter (fun c => (c.1 = id : Bool))).filterMap
    (fun c => findItem c.2 item)

/-- The loot table stored for an id (empty when the id is unknown). -/
def storedLootTable (table : List (String × List LootEntry)) (id : String) :
    List LootEntry :=
  (jsMapGet table id).getD []

/-- The stored entry for an item under an id. -/
def storedEntryFor (table : List (String × List LootEntry)) (id item : String) :
    Option LootEntry :=
  findItem (storedLootTable table id) item

/-- A sequence of `registerStructureLoot` calls applied to an initially
empty `structureLoot` table. -/
def runStructureLootCalls (calls : List (String × List LootEntry)) :
    List (String × List LootEntry) :=
  calls.foldl (fun t c => registerStructureLoot t c.1 c.2) []

/-- A sequence of `registerBiomeLoot` calls applied to an initially
empty `biomeLoot` table. -/
def runBiomeLootCalls (calls : List (String × List LootEntry)) :
    List (String × List LootEntry) :=
  calls.foldl (fun t c => registerBiomeLoot t c.1 c.2) []

/-- A concrete loot entry for item `"x"` with chance 1/5. -/
def entryX02 : LootEntry := { item := "x", chance := 1 / 5 }

/-- A concrete loot entry for item `"x"` with chance 1/2. -/
def entryX05 : LootEntry := { item := "x", chance := 1 / 2 }

/-- A concrete two-call registration sequence targeting the same id and
item with different chances. -/
def c2calls : List (String × List LootEntry) :=
  [("s", [entryX02]), ("s", [entryX05])]

/-- A concrete structure loot entry whose dimension condition is the
empty string. -/
def entryEmptyDim : LootEntry :=
  { item := "x", chance := 1, conditions := some { dimension := some "" } }

/-- A concrete merge context in the overworld plains. -/
def ctxOverworld : MergeContext :=
  { biomeId := "plains", dimensionId := "minecraft:overworld" }

/-- A concrete environment with no scannable blocks, a constant biome,
and an inventory-capable target. -/
def envEmpty : Env :=
  { blockAt := fun _ => none
    biomeAt := fun _ => "plains"
    dimId := "minecraft:overworld"
    hasContainer := true }

/-- The empty registry. -/
def regEmpty : Registry := { structures := [], structureLoot := [], biomeLoot := [] }

/-- A constant random sequence. -/
def rngZero : Nat → ℚ := fun _ => 0

/-- The origin position. -/
def posZero : Pos := { x := 0, y := 0, z := 0 }

/-- A position distinct from the origin. -/
def posOne : Pos := { x := 1, y := 0, z := 0 }

/-- A store in which the origin is recorded as player-placed. -/
def storePlacedZero : Store :=
  [(regionPropertyKey PLACED_CHESTS_KEY posZero, [posKey posZero])]

theorem jsMapGet_append {α : Type} (m l : List (String × α)) (k : String) :
    jsMapGet (m ++ l) k =
      match jsMapGet m k with
      | some v => some v
      | none => jsMapGet l k := by
  induction m with
  | nil => simp [jsMapGet]
  | cons p rest ih =>
      obtain ⟨k', v⟩ := p
      by_cases h : k' = k
      · simp [jsMapGet, h]
      · simpa [jsMapGet, h] using ih

theorem jsMapGet_replace_self {α : Type} (m : List (String × α)) (k : String)
    (v : α) (h : (jsMapGet m k).isSome = true) :
    jsMapGet (jsMapReplace m k v) k = some v := by
  induction m with
  | nil => simp [jsMapGet] at h
  | cons p rest ih =>
      obtain ⟨k', v'⟩ := p
      by_cases hk : k' = k
      · simp [jsMapGet, jsMapReplace, hk]
      · simp only [jsMapGet, jsMapReplace, hk, if_false, if_neg hk] at h ⊢
        exact ih h

theorem jsMapGet_replace_ne {α : Type} (m : List (String × α)) (k : String)
    (v : α) (k' : String) (h : k' ≠ k) :
    jsMapGet (jsMapReplace m k v) k' = jsMapGet m k' := by
  induction m with
  | nil => simp [jsMapReplace]
  | cons p rest ih =>
      obtain ⟨k₀, v₀⟩ := p
      by_cases hk : k₀ = k
      · have hne : ¬(k = k') := fun hh => h hh.symm
        subst hk
        simp [jsMapReplace, jsMapGet, hne, ih]
      · by_cases hk' : k₀ = k'
        · simp [jsMapReplace, jsMapGet, hk, hk', h]
        · simp [jsMapReplace, jsMapGet, hk, hk', h, ih]

theorem jsMapGet_set_self {α : Type} (m : List (String × α)) (k : String)
    (v : α) : jsMapGet (jsMapSet m k v) k = some v := by
  unfold jsMapSet
  by_cases h : (jsMapGet m k).isSome
  · simp [h, jsMapGet_replace_self m k v h]
  · have h0 : jsMapGet m k = none := by
      cases hh : jsMapGet m k
      · rfl
      · simp [hh] at h
    simp [h, jsMapGet_append, h0, jsMapGet]

theorem jsMapGet_set_ne {α : Type} (m : List (String × α)) (k : String)
    (v : α) (k' : String) (h : k' ≠ k) :
    jsMapGet (jsMapSet m k v) k' = jsMapGet m k' := by
  unfold jsMapSet
  by_cases hs : (jsMapGet m k).isSome
  · simp [hs, jsMapGet_replace_ne m k v k' h]
  · have hne : ¬(k = k') := fun hh => h hh.symm
    simp only [hs, if_false, Bool.false_eq_true, if_neg]
    rw [jsMapGet_append]
    cases hh : jsMapGet m k' <;> simp [jsMapGet, hne]

theorem csContains_append (s t : List String) (k : String) :
    csContains (s ++ t) k = (csContains s k || csContains t k) := by
  induction s with
  | nil => simp [csContains]
  | cons x rest ih =>
      by_cases h : x = k <;> simp [csContains, h, ih]

theorem csContains_insert_self (s : List String) (k : String) :
    csContains (csInsert s k) k = true := by
  unfold csInsert
  by_cases h : csContains s k
  · simp [h]
  · simp [h, csContains_append, csContains]

theorem csContains_insert_ne (s : List String) (k k' : String) (h : k' ≠ k) :
    csContains (csInsert s k) k' = csContains s k' := by
  unfold csInsert
  by_cases hc : csContains s k
  · simp [hc]
  · simp [hc, csContains_append, csContains, Ne.symm h]

theorem csContains_iff_mem (s : List String) (k : String) :
    csContains s k = true ↔ k ∈ s := by
  induction s with
  | nil => simp [csContains]
  | cons x rest ih =>
      by_cases h : x = k
      · simp [csContains, h]
      · simp [csContains, h, ih, Ne.symm h]

theorem strData_append (a b : String) : (a ++ b).data = a.data ++ b.data := by
  cases a; cases b; rfl

theorem strExt : ∀ {a b : String}, a.data = b.data → a = b := by
  intro a b h
  cases a; cases b
  exact congrArg String.mk h

theorem digitsLE_lt_ten : ∀ (fuel n d : Nat), d ∈ digitsLE fuel n → d < 10 := by
  intro fuel
  induction fuel with
  | zero => intro n d h; simp [digitsLE] at h
  | succ f ih =>
      intro n d h
      cases n with
      | zero => simp [digitsLE] at h
      | succ n =>
          simp only [digitsLE, List.mem_cons] at h
          rcases h with h | h
          · subst h; exact Nat.mod_lt _ (by norm_num)
          · exact ih _ _ h

theorem valLE_digitsLE : ∀ (fuel n : Nat), n ≤ fuel →
    valLE (digitsLE fuel n) = n := by
  intro fuel
  induction fuel with
  | zero =>
      intro n h
      have h0 : n = 0 := Nat.le_zero.mp h
      subst h0
      simp [digitsLE, valLE]
  | succ f ih =>
      intro n h
      cases n with
      | zero => simp [digitsLE, valLE]
      | succ n =>
          have hlt : (n + 1) / 10 < n + 1 := Nat.div_lt_self (Nat.succ_pos n) (by norm_num)
          have hdiv : (n + 1) / 10 ≤ f := by omega
          simp only [digitsLE, valLE]
          rw [ih _ hdiv]
          exact Nat.mod_add_div (n + 1) 10

theorem digitChar_injOn : ∀ d, d < 10 → ∀ e, e < 10 →
    Nat.digitChar d = Nat.digitChar e → d = e := by decide

theorem digitChar_ne_comma : ∀ d, d < 10 → Nat.digitChar d ≠ ',' := by decide

theorem digitChar_ne_dash : ∀ d, d < 10 → Nat.digitChar d ≠ '-' := by decide

theorem mapDigitChar_inj : ∀ (l₁ l₂ : List Nat), (∀ d ∈ l₁, d < 10) →
    (∀ d ∈ l₂, d < 10) → l₁.map Nat.digitChar = l₂.map Nat.digitChar →
    l₁ = l₂ := by
  intro l₁
  induction l₁ with
  | nil =>
      intro l₂ _ _ h
      cases l₂
      · rfl
      · simp at h
  | cons d ds ih =>
      intro l₂ h₁ h₂ h
      cases l₂ with
      | nil => simp at h
      | cons e es =>
          simp only [List.map_cons, List.cons.injEq] at h
          have hd : d = e :=
            digitChar_injOn d (h₁ d (by simp)) e (h₂ e (by simp)) h.1
          have ht : ds = es :=
            ih es (fun x hx => h₁ x (by simp [hx]))
              (fun x hx => h₂ x (by simp [hx])) h.2
          rw [hd, ht]

theorem decStr_pos_digits {b : Nat} (hb : b ≠ 0)
    (h : ((digitsLE b b).map Nat.digitChar).reverse = ['0']) : False := by
  have hmap : (digitsLE b b).map Nat.digitChar = ['0'] := by
    have := congrArg List.reverse h
    simpa using this
  have hdig : digitsLE b b = [0] := by
    refine mapDigitChar_inj _ [0] (fun d hd => digitsLE_lt_ten b b d hd) ?_ ?_
    · intro d hd
      simp at hd
      omega
    · simpa using hmap
  have hval : valLE (digitsLE b b) = b := valLE_digitsLE b b le_rfl
  rw [hdig] at hval
  simp [valLE] at hval
  exact hb hval.symm

theorem decStr_inj : ∀ (a b : Nat), decStr a = decStr b → a = b := by
  intro a b h
  unfold decStr at h
  by_cases ha : a = 0 <;> by_cases hb : b = 0
  · omega
  · exfalso
    rw [if_pos ha, if_neg hb] at h
    have hd := congrArg String.data h
    have hz : ("0" : String).data = ['0'] := by decide
    rw [hz] at hd
    exact decStr_pos_digits hb (by simpa using hd.symm)
  · exfalso
    rw [if_neg ha, if_pos hb] at h
    have hd := congrArg String.data h
    have hz : ("0" : String).data = ['0'] := by decide
    rw [hz] at hd
    exact decStr_pos_digits ha (by simpa using hd)
  · rw [if_neg ha, if_neg hb] at h
    have hd := congrArg String.data h
    simp only [String.mk] at hd
    have hrev : ((digitsLE a a).map Nat.digitChar).reverse =
        ((digitsLE b b).map Nat.digitChar).reverse := hd
    have hmap : (digitsLE a a).map Nat.digitChar =
        (digitsLE b b).map Nat.digitChar := by
      have := congrArg List.reverse hrev
      simpa using this
    have hdig : digitsLE a a = digitsLE b b :=
      mapDigitChar_inj _ _ (fun d hd => digitsLE_lt_ten a a d hd)
        (fun d hd => digitsLE_lt_ten b b d hd) hmap
    have hv : valLE (digitsLE a a) = valLE (digitsLE b b) := by rw [hdig]
    rw [valLE_digitsLE a a le_rfl, valLE_digitsLE b b le_rfl] at hv
    exact hv

theorem decStr_chars (n : Nat) :
    ∀ c ∈ (decStr n).data, ∃ d, d < 10 ∧ c = Nat.digitChar d := by
  intro c hc
  unfold decStr at hc
  by_cases hn : n = 0
  · rw [if_pos hn] at hc
    have hz : ("0" : String).data = ['0'] := by decide
    rw [hz] at hc
    simp at hc
    exact ⟨0, by norm_num, by simp [hc]; rfl⟩
  · rw [if_neg hn] at hc
    simp only [String.mk, List.mem_reverse, List.mem_map] at hc
    obtain ⟨d, hd, hcd⟩ := hc
    exact ⟨d, digitsLE_lt_ten n n d hd, hcd.symm⟩

theorem decStr_no_comma (n : Nat) : ',' ∉ (decStr n).data := by
  intro h
  obtain ⟨d, hd, hc⟩ := decStr_chars n ',' h
  exact digitChar_ne_comma d hd hc.symm

theorem decStr_no_dash (n : Nat) : '-' ∉ (decStr n).data := by
  intro h
  obtain ⟨d, hd, hc⟩ := decStr_chars n '-' h
  exact digitChar_ne_dash d hd hc.symm

theorem dash_data : ("-" : String).data = ['-'] := by decide

theorem intStr_no_comma (i : Int) : ',' ∉ (intStr i).data := by
  cases i with
  | ofNat m => exact decStr_no_comma m
  | negSucc m =>
      intro hc
      have : (intStr (Int.negSucc m)).data = '-' :: (decStr (m + 1)).data := by
        show (("-" : String) ++ decStr (m + 1)).data = _
        rw [strData_append, dash_data]
        rfl
      rw [this] at hc
      rcases List.mem_cons.mp hc with h | h
      · exact absurd h (by decide)
      · exact decStr_no_comma (m + 1) h

theorem intStr_inj : ∀ (i j : Int), intStr i = intStr j → i = j := by
  intro i j h
  cases i with
  | ofNat m =>
      cases j with
      | ofNat k => exact congrArg Int.ofNat (decStr_inj _ _ h)
      | negSucc k =>
          exfalso
          have hdash : '-' ∈ (decStr m).data := by
            have hh : decStr m = ("-" : String) ++ decStr (k + 1) := h
            rw [hh, strData_append, dash_data]
            simp
          exact decStr_no_dash m hdash
  | negSucc m =>
      cases j with
      | ofNat k =>
          exfalso
          have hdash : '-' ∈ (decStr k).data := by
            have hh : decStr k = ("-" : String) ++ decStr (m + 1) := h.symm
            rw [hh, strData_append, dash_data]
            simp
          exact decStr_no_dash k hdash
      | negSucc k =>
          have hd := congrArg String.data h
          rw [show (intStr (Int.negSucc m)).data =
                (("-" : String) ++ decStr (m + 1)).data from rfl,
              show (intStr (Int.negSucc k)).data =
                (("-" : String) ++ decStr (k + 1)).data from rfl,
              strData_append, strData_append, dash_data] at hd
          simp only [List.cons_append, List.nil_append, List.cons.injEq,
            true_and] at hd
          have hmk := decStr_inj _ _ (strExt hd)
          have : m = k := by omega
          rw [this]

theorem comma_split : ∀ (a b u v : List Char), ',' ∉ a → ',' ∉ b →
    a ++ ',' :: u = b ++ ',' :: v → a = b ∧ u = v := by
  intro a
  induction a with
  | nil =>
      intro b u v _ hb h
      cases b with
      | nil => simpa using h
      | cons c bs =>
          exfalso
          simp only [List.nil_append, List.cons_append, List.cons.injEq] at h
          exact hb (List.mem_cons.mpr (Or.inl h.1))
  | cons x as ih =>
      intro b u v ha hb h
      cases b with
      | nil =>
          exfalso
          simp only [List.cons_append, List.nil_append, List.cons.injEq] at h
          exact ha (List.mem_cons.mpr (Or.inl h.1.symm))
      | cons y bs =>
          simp only [List.cons_append, List.cons.injEq] at h
          obtain ⟨hxy, htail⟩ := h
          have ha' : ',' ∉ as := fun hm => ha (List.mem_cons.mpr (Or.inr hm))
          have hb' : ',' ∉ bs := fun hm => hb (List.mem_cons.mpr (Or.inr hm))
          obtain ⟨he, hu⟩ := ih bs u v ha' hb' htail
          exact ⟨by rw [hxy, he], hu⟩

theorem comma_data : ("," : String).data = [','] := by decide

theorem posKey_data (p : Pos) : (posKey p).data =
    (intStr p.x).data ++ ',' :: ((intStr p.y).data ++ ',' :: (intStr p.z).data) := by
  unfold posKey
  rw [strData_append, strData_append, strData_append, strData_append, comma_data]
  simp [List.append_assoc]

theorem posKey_inj : ∀ {p q : Pos}, posKey p = posKey q → p = q := by
  intro p q h
  have hd := congrArg String.data h
  rw [posKey_data, posKey_data] at hd
  obtain ⟨h1, hrest⟩ :=
    comma_split _ _ _ _ (intStr_no_comma p.x) (intStr_no_comma q.x) hd
  obtain ⟨h2, h3⟩ :=
    comma_split _ _ _ _ (intStr_no_comma p.y) (intStr_no_comma q.y) hrest
  have hx := intStr_inj _ _ (strExt h1)
  have hy := intStr_inj _ _ (strExt h2)
  have hz := intStr_inj _ _ (strExt h3)
  cases p; cases q
  simp_all

theorem regionKey_data (p : Pos) : (regionKey p).data =
    (intStr (p.x.fdiv REGION_SIZE)).data ++ ',' ::
      (intStr (p.z.fdiv REGION_SIZE)).data := by
  unfold regionKey
  rw [strData_append, strData_append, comma_data]
  simp [List.append_assoc]

theorem placed_append_ne_opened (s t : String) :
    PLACED_CHESTS_KEY ++ s ≠ OPENED_CHESTS_KEY ++ t := by
  intro h
  have hd := congrArg String.data h
  rw [strData_append, strData_append] at hd
  have h7 : (PLACED_CHESTS_KEY.data ++ s.data)[7]? =
      (OPENED_CHESTS_KEY.data ++ t.data)[7]? := by rw [hd]
  rw [List.getElem?_append, List.getElem?_append] at h7
  rw [if_pos (by decide : 7 < PLACED_CHESTS_KEY.data.length),
      if_pos (by decide : 7 < OPENED_CHESTS_KEY.data.length)] at h7
  rw [show (PLACED_CHESTS_KEY.data)[7]? = some 'p' from by decide,
      show (OPENED_CHESTS_KEY.data)[7]? = some 'o' from by decide] at h7
  simp at h7

theorem rpk_placed_ne_opened (a b : Pos) :
    regionPropertyKey PLACED_CHESTS_KEY a ≠ regionPropertyKey OPENED_CHESTS_KEY b := by
  unfold regionPropertyKey
  rw [String.append_assoc, String.append_assoc]
  exact placed_append_ne_opened _ _

theorem canInjectChest_eq (w : Store) (p : Pos) :
    canInjectChest w p =
      (!csContains (getChestSet w PLACED_CHESTS_KEY p) (posKey p)
       && !csContains (getChestSet w OPENED_CHESTS_KEY p) (posKey p)) := by
  unfold canInjectChest
  by_cases h1 : csContains (getChestSet w PLACED_CHESTS_KEY p) (posKey p) <;>
    by_cases h2 : csContains (getChestSet w OPENED_CHESTS_KEY p) (posKey p) <;>
    simp [h1, h2]

theorem getChestSet_mark_opened_placed (w : Store) (p q : Pos) :
    getChestSet (markChestOpened w p) PLACED_CHESTS_KEY q =
      getChestSet w PLACED_CHESTS_KEY q := by
  unfold markChestOpened saveChestSet getChestSet
  rw [jsMapGet_set_ne _ _ _ _ (rpk_placed_ne_opened q p)]

theorem getChestSet_mark_placed_opened (w : Store) (p q : Pos) :
    getChestSet (markChestPlaced w p) OPENED_CHESTS_KEY q =
      getChestSet w OPENED_CHESTS_KEY q := by
  unfold markChestPlaced saveChestSet getChestSet
  rw [jsMapGet_set_ne _ _ _ _ (Ne.symm (rpk_placed_ne_opened p q))]

theorem getChestSet_mark_opened_same (w : Store) (p : Pos) :
    getChestSet (markChestOpened w p) OPENED_CHESTS_KEY p =
      csInsert (getChestSet w OPENED_CHESTS_KEY p) (posKey p) := by
  unfold markChestOpened saveChestSet getChestSet
  rw [jsMapGet_set_self]
  rfl

theorem getChestSet_mark_placed_same (w : Store) (p : Pos) :
    getChestSet (markChestPlaced w p) PLACED_CHESTS_KEY p =
      csInsert (getChestSet w PLACED_CHESTS_KEY p) (posKey p) := by
  unfold markChestPlaced saveChestSet getChestSet
  rw [jsMapGet_set_self]
  rfl

theorem canInject_after_opened (w : Store) (p : Pos) :
    canInjectChest (markChestOpened w p) p = false := by
  rw [canInjectChest_eq, getChestSet_mark_opened_placed,
    getChestSet_mark_opened_same]
  simp [csContains_insert_self]

theorem canInject_after_placed (w : Store) (p : Pos) :
    canInjectChest (markChestPlaced w p) p = false := by
  rw [canInjectChest_eq, getChestSet_mark_placed_same]
  simp [csContains_insert_self]

theorem csContains_opened_after_mark (w : Store) (p q : Pos)
    (hpq : posKey q ≠ posKey p) :
    csContains (getChestSet (markChestOpened w p) OPENED_CHESTS_KEY q) (posKey q) =
      csContains (getChestSet w OPENED_CHESTS_KEY q) (posKey q) := by
  unfold markChestOpened saveChestSet getChestSet
  by_cases hk : regionPropertyKey OPENED_CHESTS_KEY q =
      regionPropertyKey OPENED_CHESTS_KEY p
  · rw [hk, jsMapGet_set_self]
    simp only [Option.getD_some]
    rw [csContains_insert_ne _ _ _ hpq]
  · rw [jsMapGet_set_ne _ _ _ _ hk]

theorem csContains_placed_after_mark (w : Store) (p q : Pos)
    (hpq : posKey q ≠ posKey p) :
    csContains (getChestSet (markChestPlaced w p) PLACED_CHESTS_KEY q) (posKey q) =
      csContains (getChestSet w PLACED_CHESTS_KEY q) (posKey q) := by
  unfold markChestPlaced saveChestSet getChestSet
  by_cases hk : regionPropertyKey PLACED_CHESTS_KEY q =
      regionPropertyKey PLACED_CHESTS_KEY p
  · rw [hk, jsMapGet_set_self]
    simp only [Option.getD_some]
    rw [csContains_insert_ne _ _ _ hpq]
  · rw [jsMapGet_set_ne _ _ _ _ hk]

/-- C6: a position never marked (empty store) is eligible; eligibility
holds exactly when the position key is absent from both the placed and
the opened regional set; marking a position opened or placed makes it
ineligible.  In this embedding `canInjectChest` is a pure function of
the store, so repeated reads trivially return the same value and perform
no writes. -/
theorem claim6_eligibility (w : Store) (p : Pos) :
    canInjectChest ([] : Store) p = true
    ∧ (canInjectChest w p = true ↔
        (posKey p ∉ getChestSet w PLACED_CHESTS_KEY p
         ∧ posKey p ∉ getChestSet w OPENED_CHESTS_KEY p))
    ∧ canInjectChest (markChestOpened w p) p = false
    ∧ canInjectChest (markChestPlaced w p) p = false := by
  refine ⟨?_, ?_, canInject_after_opened w p, canInject_after_placed w p⟩
  · simp [canInjectChest, getChestSet, jsMapGet, csContains]
  · rw [canInjectChest_eq]
    simp [← csContains_iff_mem]

/-- C7: marking one position opened or placed does not change the
eligibility of any other position — the derived property keys of the two
tracking kinds never collide, and within one regional set two distinct
positions always have distinct position keys. -/
theorem claim7_mark_frame (w : Store) (p q : Pos) (hpq : p ≠ q) :
    canInjectChest (markChestOpened w p) q = canInjectChest w q
    ∧ canInjectChest (markChestPlaced w p) q = canInjectChest w q := by
  have hkey : posKey q ≠ posKey p := fun h => hpq (posKey_inj h).symm
  constructor
  · rw [canInjectChest_eq, canInjectChest_eq, getChestSet_mark_opened_placed,
      csContains_opened_after_mark w p q hkey]
  · rw [canInjectChest_eq, canInjectChest_eq, getChestSet_mark_placed_opened,
      csContains_placed_after_mark w p q hkey]

/-- Witness for C7 at the concrete positions (0,0,0) and (1,0,0). -/
theorem claim7_mark_frame_witness :
    posZero ≠ posOne
    ∧ canInjectChest (markChestOpened [] posZero) posOne =
        canInjectChest [] posOne
    ∧ canInjectChest (markChestPlaced [] posZero) posOne =
        canInjectChest [] posOne :=
  ⟨by decide, (claim7_mark_frame [] posZero posOne (by decide)).1,
    (claim7_mark_frame [] posZero posOne (by decide)).2⟩

/-- C8: two positions share a region key exactly when their x and z
coordinates agree after floor division by 256; in particular (0,0,0) and
(300,0,0) fall in different regions while (0,0,0) and (10,0,10) share
one. -/
theorem claim8_regionKey (p q : Pos) :
    (regionKey p = regionKey q ↔
      (p.x.fdiv 256 = q.x.fdiv 256 ∧ p.z.fdiv 256 = q.z.fdiv 256))
    ∧ regionKey ⟨0, 0, 0⟩ ≠ regionKey ⟨300, 0, 0⟩
    ∧ regionKey ⟨0, 0, 0⟩ = regionKey ⟨10, 0, 10⟩ := by
  refine ⟨⟨?_, ?_⟩, by decide, by decide⟩
  · intro h
    have hd := congrArg String.data h
    rw [regionKey_data, regionKey_data] at hd
    obtain ⟨h1, h2⟩ :=
      comma_split _ _ _ _ (intStr_no_comma _) (intStr_no_comma _) hd
    exact ⟨intStr_inj _ _ (strExt h1), intStr_inj _ _ (strExt h2)⟩
  · rintro ⟨hx, hz⟩
    unfold regionKey
    rw [show p.x.fdiv REGION_SIZE = q.x.fdiv REGION_SIZE from hx,
      show p.z.fdiv REGION_SIZE = q.z.fdiv REGION_SIZE from hz]

theorem listIsPre_append (l t : List Char) : listIsPre l (l ++ t) = true := by
  induction l with
  | nil => rfl
  | cons a as ih => simp [listIsPre, ih]

theorem strStartsWith_append_self (s t : String) :
    strStartsWith (s ++ t) s = true := by
  unfold strStartsWith
  rw [strData_append]
  exact listIsPre_append _ _

theorem strStartsWith_rpk (base : String) (p : Pos) :
    strStartsWith (regionPropertyKey base p) base = true := by
  unfold regionPropertyKey
  rw [String.append_assoc]
  exact strStartsWith_append_self _ _

theorem resetFold_eq_filter : ∀ (ids : List String) (w : Store),
    ids.foldl
      (fun acc id =>
        if strStartsWith id PLACED_CHESTS_KEY || strStartsWith id OPENED_CHESTS_KEY
        then delProp acc id else acc) w
    = w.filter (fun e =>
        !((strStartsWith e.1 PLACED_CHESTS_KEY || strStartsWith e.1 OPENED_CHESTS_KEY)
          && csContains ids e.1)) := by
  intro ids
  induction ids with
  | nil =>
      intro w
      simp [csContains]
  | cons id rest ih =>
      intro w
      simp only [List.foldl_cons]
      rw [ih]
      by_cases hm : (strStartsWith id PLACED_CHESTS_KEY ||
          strStartsWith id OPENED_CHESTS_KEY) = true
      · rw [if_pos hm]
        unfold delProp
        rw [List.filter_filter]
        apply List.filter_congr
        intro e _
        by_cases hid : e.1 = id
        · simp [hid, hm, csContains]
        · simp [hid, csContains, Ne.symm hid]
      · rw [if_neg hm]
        apply List.filter_congr
        intro e _
        have hm' : (strStartsWith id PLACED_CHESTS_KEY ||
            strStartsWith id OPENED_CHESTS_KEY) = false := by
          cases hh : (strStartsWith id PLACED_CHESTS_KEY ||
              strStartsWith id OPENED_CHESTS_KEY)
          · rfl
          · exact absurd hh hm
        by_cases hid : e.1 = id
        · simp [hid, hm', csContains]
        · simp [hid, csContains, Ne.symm hid]

theorem resetChestTracking_eq_filter (w : Store) :
    resetChestTracking w = w.filter (fun e =>
      !(strStartsWith e.1 PLACED_CHESTS_KEY ||
        strStartsWith e.1 OPENED_CHESTS_KEY)) := by
  unfold resetChestTracking
  rw [resetFold_eq_filter]
  apply List.filter_congr
  intro e he
  have hmem : csContains (w.map (·.1)) e.1 = true := by
    rw [csContains_iff_mem]
    exact List.mem_map.mpr ⟨e, he, rfl⟩
  rw [hmem]
  simp

theorem jsMapGet_filter_excluded {α : Type} :
    ∀ (m : List (String × α)) (q : String → Bool) (k : String), q k = false →
      jsMapGet (m.filter (fun p => q p.1)) k = none := by
  intro m q k hq
  induction m with
  | nil => simp [jsMapGet]
  | cons p rest ih =>
      by_cases hk : p.1 = k
      · have hqp : q p.1 = false := by rw [hk]; exact hq
        simp [List.filter_cons, hqp, ih]
      · by_cases hqp : q p.1 = true
        · simp [List.filter_cons, hqp, jsMapGet, hk, ih]
        · have : q p.1 = false := by
            cases hh : q p.1
            · rfl
            · exact absurd hh hqp
          simp [List.filter_cons, this, ih]

/-- C9: after `resetChestTracking` every persisted key of either
tracking kind is gone — in particular both regional records of every
position read as absent — and every position is eligible again. -/
theorem claim9_resetAll (w : Store) (p : Pos) :
    canInjectChest (resetChestTracking w) p = true
    ∧ jsMapGet (resetChestTracking w)
        (regionPropertyKey PLACED_CHESTS_KEY p) = none
    ∧ jsMapGet (resetChestTracking w)
        (regionPropertyKey OPENED_CHESTS_KEY p) = none
    ∧ (resetChestTracking w).filter (fun e =>
        strStartsWith e.1 PLACED_CHESTS_KEY ||
        strStartsWith e.1 OPENED_CHESTS_KEY) = [] := by
  have hp : jsMapGet (resetChestTracking w)
      (regionPropertyKey PLACED_CHESTS_KEY p) = none := by
    rw [resetChestTracking_eq_filter]
    exact jsMapGet_filter_excluded w
      (fun k => !(strStartsWith k PLACED_CHESTS_KEY ||
        strStartsWith k OPENED_CHESTS_KEY)) _ (by simp [strStartsWith_rpk])
  have ho : jsMapGet (resetChestTracking w)
      (regionPropertyKey OPENED_CHESTS_KEY p) = none := by
    rw [resetChestTracking_eq_filter]
    exact jsMapGet_filter_excluded w
      (fun k => !(strStartsWith k PLACED_CHESTS_KEY ||
        strStartsWith k OPENED_CHESTS_KEY)) _ (by simp [strStartsWith_rpk])
  refine ⟨?_, hp, ho, ?_⟩
  · rw [canInjectChest_eq]
    unfold getChestSet
    rw [hp, ho]
    simp [csContains]
  · rw [resetChestTracking_eq_filter, List.filter_filter]
    apply List.eq_nil_iff_forall_not_mem.mpr
    intro x hx
    simp [List.mem_filter] at hx
    obtain ⟨_, hor, hf1, hf2⟩ := hx
    rcases hor with h | h
    · rw [hf1] at h
      exact Bool.noConfusion h
    · rw [hf2] at h
      exact Bool.noConfusion h

theorem resolve_skip (env : Env) (reg : Registry) (pos : Pos) (rng : Nat → ℚ)
    (st : WorldState) (h : canInjectChest st.props pos = false) :
    resolve env reg pos rng st = st := by
  unfold resolve
  simp [h]

/-- C5: a container whose position is recorded in either the placed or
the opened regional set is ineligible, and `resolve` aborts silently,
changing neither the persisted store nor any inventory. -/
theorem claim5_ineligible_noop (env : Env) (reg : Registry) (pos : Pos)
    (rng : Nat → ℚ) (st : WorldState)
    (h : posKey pos ∈ getChestSet st.props PLACED_CHESTS_KEY pos
       ∨ posKey pos ∈ getChestSet st.props OPENED_CHESTS_KEY pos) :
    resolve env reg pos rng st = st := by
  have hcan : canInjectChest st.props pos = false := by
    rw [canInjectChest_eq]
    rcases h with h | h
    · rw [(csContains_iff_mem _ _).mpr h]; simp
    · rw [(csContains_iff_mem _ _).mpr h]; simp
  exact resolve_skip env reg pos rng st hcan

/-- Witness for C5: a store where the origin is recorded as placed. -/
theorem claim5_ineligible_noop_witness :
    (posKey posZero ∈ getChestSet storePlacedZero PLACED_CHESTS_KEY posZero
     ∨ posKey posZero ∈ getChestSet storePlacedZero OPENED_CHESTS_KEY posZero)
    ∧ resolve envEmpty regEmpty posZero rngZero ⟨storePlacedZero, []⟩ =
        ⟨storePlacedZero, []⟩ :=
  ⟨Or.inl (by decide),
    claim5_ineligible_noop envEmpty regEmpty posZero rngZero
      ⟨storePlacedZero, []⟩ (Or.inl (by decide))⟩

/-- C1: once eligibility passes, `resolve` leaves the persisted store
exactly `markChestOpened` of the old store — the marking happens
unconditionally, whether or not the merged table is empty, and nothing
after it (injection only touches the inventory) ever changes the store —
and a second `resolve` on the same position is a complete no-op. -/
theorem claim1_mark_and_idempotent (env : Env) (reg : Registry) (pos : Pos)
    (rng rng' : Nat → ℚ) (st : WorldState) :
    (canInjectChest st.props pos = true →
      (resolve env reg pos rng st).props = markChestOpened st.props pos)
    ∧ resolve env reg pos rng' (resolve env reg pos rng st) =
        resolve env reg pos rng st := by
  have hres : ∀ (r : Nat → ℚ), canInjectChest st.props pos = true →
      (resolve env reg pos r st).props = markChestOpened st.props pos := by
    intro r h
    unfold resolve
    simp only [h, Bool.not_true, Bool.false_eq_true, if_false]
    split <;> rfl
  refine ⟨hres rng, ?_⟩
  by_cases h : canInjectChest st.props pos = true
  · have h2 : canInjectChest (resolve env reg pos rng st).props pos = false := by
      rw [hres rng h]
      exact canInject_after_opened st.props pos
    exact resolve_skip env reg pos rng' _ h2
  · have hf : canInjectChest st.props pos = false := by
      cases hh : canInjectChest st.props pos
      · rfl
      · exact absurd hh h
    rw [resolve_skip env reg pos rng st hf, resolve_skip env reg pos rng' st hf]

/-- Witness for C1: a fresh store, an empty world, the origin. -/
theorem claim1_mark_and_idempotent_witness :
    canInjectChest ([] : Store) posZero = true
    ∧ (resolve envEmpty regEmpty posZero rngZero ⟨[], []⟩).props =
        markChestOpened ([] : Store) posZero :=
  ⟨by decide,
    (claim1_mark_and_idempotent envEmpty regEmpty posZero rngZero rngZero
      ⟨[], []⟩).1 (by decide)⟩

/-- C10: registering a structure id twice keeps the first registration —
if the id was previously unregistered the stored requirement after both
calls is the first one — and the duplicate call is a silent no-op (the
operation is a total function; no error path exists). -/
theorem claim10_registerStructure (structs : List (String × Requirement))
    (id : String) (r1 r2 : Requirement) :
    (jsMapGet structs id = none →
      jsMapGet (registerStructure (registerStructure structs id r1) id r2) id =
        some r1)
    ∧ registerStructure (registerStructure structs id r1) id r2 =
        registerStructure structs id r1 := by
  constructor
  · intro h
    have h1 : registerStructure structs id r1 = jsMapSet structs id r1 := by
      unfold registerStructure
      rw [h]
    have h2 : jsMapGet (jsMapSet structs id r1) id = some r1 :=
      jsMapGet_set_self _ _ _
    rw [h1]
    unfold registerStructure
    rw [h2]
    exact h2
  · cases h : jsMapGet structs id with
    | some r =>
        have h1 : registerStructure structs id r1 = structs := by
          unfold registerStructure
          rw [h]
        rw [h1]
        unfold registerStructure
        rw [h]
    | none =>
        have h1 : registerStructure structs id r1 = jsMapSet structs id r1 := by
          unfold registerStructure
          rw [h]
        rw [h1]
        unfold registerStructure
        rw [jsMapGet_set_self]

/-- Witness for C10 at a fresh table and two distinct requirements. -/
theorem claim10_registerStructure_witness :
    jsMapGet ([] : List (String × Requirement)) "s" = none
    ∧ jsMapGet
        (registerStructure
          (registerStructure [] "s" (Requirement.existence ["a"]))
          "s" (Requirement.existence ["b"])) "s" =
        some (Requirement.existence ["a"]) :=
  ⟨rfl,
    (claim10_registerStructure [] "s" (Requirement.existence ["a"])
      (Requirement.existence ["b"])).1 rfl⟩

theorem foldl_preserve {α β : Type} (f : α → β → α) (P : α → Prop)
    (hstep : ∀ a b, P a → P (f a b)) :
    ∀ (l : List β) (a : α), P a → P (l.foldl f a) := by
  intro l
  induction l with
  | nil => intro a ha; exact ha
  | cons x xs ih => intro a ha; exact ih _ (hstep a x ha)

theorem jsMapGet_mem {α : Type} :
    ∀ (m : List (String × α)) (k : String) (v : α),
      jsMapGet m k = some v → (k, v) ∈ m := by
  intro m
  induction m with
  | nil => intro k v h; simp [jsMapGet] at h
  | cons p rest ih =>
      intro k v h
      obtain ⟨k', v'⟩ := p
      by_cases hk : k' = k
      · simp [jsMapGet, hk] at h
        subst hk
        subst h
        exact List.mem_cons_self _ _
      · simp [jsMapGet, hk] at h
        exact List.mem_cons_of_mem _ (ih k v h)

theorem jsMapReplace_mem {α : Type} :
    ∀ (m : List (String × α)) (k : String) (v : α) (e : String × α),
      e ∈ jsMapReplace m k v → e = (k, v) ∨ e ∈ m := by
  intro m
  induction m with
  | nil => intro k v e h; simp [jsMapReplace] at h
  | cons p rest ih =>
      intro k v e h
      obtain ⟨k₀, v₀⟩ := p
      by_cases hk : k₀ = k
      · rw [jsMapReplace, if_pos hk] at h
        rcases List.mem_cons.mp h with h | h
        · exact Or.inl h
        · rcases ih k v e h with h | h
          · exact Or.inl h
          · exact Or.inr (List.mem_cons_of_mem _ h)
      · rw [jsMapReplace, if_neg hk] at h
        rcases List.mem_cons.mp h with h | h
        · exact Or.inr (h ▸ List.mem_cons_self _ _)
        · rcases ih k v e h with h | h
          · exact Or.inl h
          · exact Or.inr (List.mem_cons_of_mem _ h)

theorem scanArea_counts_pos (blockAt : Pos → Option String) (origin : Pos)
    (radius : Nat) :
    ∀ e ∈ (scanArea blockAt origin radius).blockCount, 1 ≤ e.2 := by
  have hstep : ∀ (acc : ScanResult) (dx dy dz : Int),
      (∀ e ∈ acc.blockCount, 1 ≤ e.2) →
      ∀ e ∈ (scanStep blockAt origin acc dx dy dz).blockCount, 1 ≤ e.2 := by
    intro acc dx dy dz hacc e he
    unfold scanStep at he
    cases hb : blockAt ⟨origin.x + dx, origin.y + dy, origin.z + dz⟩ with
    | none => rw [hb] at he; exact hacc e he
    | some id =>
        rw [hb] at he
        simp only at he
        unfold jsMapSet at he
        by_cases hs : (jsMapGet acc.blockCount id).isSome
        · rw [if_pos hs] at he
          rcases jsMapReplace_mem _ _ _ _ he with h | h
          · rw [h]; simp
          · exact hacc e h
        · rw [if_neg hs] at he
          rcases List.mem_append.mp he with h | h
          · exact hacc e h
          · simp at h
            rw [h]
            simp
  unfold scanArea
  refine foldl_preserve _ (fun s : ScanResult => ∀ e ∈ s.blockCount, 1 ≤ e.2)
    ?_ _ _ ?_
  · intro a dx ha
    refine foldl_preserve _ (fun s : ScanResult => ∀ e ∈ s.blockCount, 1 ≤ e.2)
      ?_ _ _ ha
    intro a' dy ha'
    refine foldl_preserve _ (fun s : ScanResult => ∀ e ∈ s.blockCount, 1 ≤ e.2)
      ?_ _ _ ha'
    intro a'' dz ha''
    exact hstep a'' dx dy dz ha''
  · intro e he
    simp at he

theorem jsMapGet_isSome_eq_pos (m : List (String × Nat))
    (hm : ∀ e ∈ m, 1 ≤ e.2) (b : String) :
    (jsMapGet m b).isSome = (1 ≤ (jsMapGet m b).getD 0 : Bool) := by
  cases h : jsMapGet m b with
  | none => simp [h]
  | some v =>
      have hv : 1 ≤ v := hm _ (jsMapGet_mem m b v h)
      simp [h, hv]

theorem listAny_congr {α : Type} (l : List α) (p q : α → Bool)
    (h : ∀ a, p a = q a) : l.any p = l.any q := by
  induction l with
  | nil => rfl
  | cons a as ih => simp only [List.any_cons, h a, ih]

theorem listAll_congr {α : Type} (l : List α) (p q : α → Bool)
    (h : ∀ a, p a = q a) : l.all p = l.all q := by
  induction l with
  | nil => rfl
  | cons a as ih => simp only [List.all_cons, h a, ih]

theorem bool_not_lt (x n : Nat) : (!(x < n : Bool)) = (n ≤ x : Bool) := by
  by_cases h : x < n
  · have h2 : ¬ n ≤ x := by omega
    simp [h, h2]
  · have h2 : n ≤ x := by omega
    simp [h, h2]

theorem matchRequirement_eq_spec (bc : List (String × Nat))
    (hm : ∀ e ∈ bc, 1 ≤ e.2) (req : Requirement) :
    matchRequirement bc req = specSatisfies bc req := by
  cases req with
  | existence blocks =>
      simp only [matchRequirement, specSatisfies]
      exact listAny_congr _ _ _ (fun b => jsMapGet_isSome_eq_pos bc hm b)
  | counts reqs =>
      simp only [matchRequirement, specSatisfies]
      exact listAll_congr _ _ _ (fun r => bool_not_lt _ _)

theorem firstMatch_eq_find (structs : List (String × Requirement))
    (bc : List (String × Nat)) (hm : ∀ e ∈ bc, 1 ≤ e.2) :
    firstMatch structs bc =
      ((structs.find? (fun p => specSatisfies bc p.2)).map (·.1)).getD "default" := by
  induction structs with
  | nil => rfl
  | cons s rest ih =>
      obtain ⟨id, req⟩ := s
      unfold firstMatch
      rw [matchRequirement_eq_spec bc hm req]
      by_cases h : specSatisfies bc req = true
      · rw [if_pos h, List.find?_cons_of_pos _ (by simpa using h)]
        rfl
      · have hf : specSatisfies bc req = false := by
          cases hh : specSatisfies bc req
          · rfl
          · exact absurd hh h
        rw [if_neg (by simp [hf]), List.find?_cons_of_neg _ (by simp [hf])]
        exact ih

/-- C3: `detectNearbyStructure` computes exactly the claim's
classification of the scan result: chest count at least 6 forces
`"chest_cluster"` regardless of requirements; otherwise the first
registered requirement satisfied under count-at-least-1 semantics for
lists and per-minimum semantics for mappings; otherwise `"default"`. -/
theorem claim3_detect_spec (blockAt : Pos → Option String) (origin : Pos)
    (radius : Nat) (structs : List (String × Requirement)) :
    detectNearbyStructure blockAt origin radius structs =
      specClassify structs (scanArea blockAt origin radius) := by
  unfold detectNearbyStructure specClassify
  by_cases h : 6 ≤ (scanArea blockAt origin radius).chestCount
  · simp [h]
  · simp only [h, if_false]
    exact firstMatch_eq_find _ _ (scanArea_counts_pos blockAt origin radius)

theorem resolvedChance_accumulate (m : List (String × ℚ)) (e : LootEntry)
    (i : String) :
    resolvedChance (accumulateEntry m e) i =
      if i = e.item then resolvedChance m i + e.chance
      else resolvedChance m i := by
  unfold accumulateEntry resolvedChance
  by_cases h : i = e.item
  · rw [if_pos h, h, jsMapGet_set_self]
    simp
  · rw [if_neg h, jsMapGet_set_ne _ _ _ _ h]

theorem resolvedChance_foldl_acc :
    ∀ (l : List LootEntry) (m : List (String × ℚ)) (i : String),
    resolvedChance (l.foldl accumulateEntry m) i =
      resolvedChance m i +
        ((l.filter (fun e => (e.item = i : Bool))).map (·.chance)).sum := by
  intro l
  induction l with
  | nil => intro m i; simp
  | cons e rest ih =>
      intro m i
      simp only [List.foldl_cons]
      rw [ih]
      by_cases hi : e.item = i
      · rw [resolvedChance_accumulate, if_pos hi.symm]
        simp [List.filter_cons, hi]
        ring
      · rw [resolvedChance_accumulate, if_neg (fun hh => hi hh.symm)]
        simp [List.filter_cons, hi]

theorem resolvedChance_foldl_skip (skip : LootEntry → Bool) :
    ∀ (l : List LootEntry) (m : List (String × ℚ)) (i : String),
    resolvedChance
        (l.foldl (fun m e => if skip e then m else accumulateEntry m e) m) i =
      resolvedChance m i +
        ((l.filter (fun e => !(skip e) && (e.item = i : Bool))).map
          (·.chance)).sum := by
  intro l
  induction l with
  | nil => intro m i; simp
  | cons e rest ih =>
      intro m i
      simp only [List.foldl_cons]
      by_cases hk : skip e = true
      · rw [if_pos hk, ih]
        simp [List.filter_cons, hk]
      · have hkf : skip e = false := by
          cases hh : skip e
          · rfl
          · exact absurd hh hk
        rw [if_neg (by simp [hkf]), ih]
        by_cases hi : e.item = i
        · rw [resolvedChance_accumulate, if_pos hi.symm]
          simp [List.filter_cons, hkf, hi]
          ring
        · rw [resolvedChance_accumulate, if_neg (fun hh => hi hh.symm)]
          simp [List.filter_cons, hkf, hi]

theorem entrySkipped_eq_amended (e : LootEntry) (ctx : MergeContext) :
    entrySkipped e ctx = c4AmendedSkip e ctx := by
  cases hc : e.conditions <;> simp [entrySkipped, c4AmendedSkip, condSkip, hc]

/-- C4 (amended): the merged loot table assigns each item the sum of the
chances of all its biome entries plus the chances of all its structure
entries that are not skipped, where an entry is skipped iff it carries a
nonempty `conditions.dimension` differing from the context's dimension,
or a `conditions.biomes` list not containing the context's biome; an
item in both tables receives the sum of both contributions with no
clamping. -/
theorem claim4_merge_additive (biomeTable structureTable : Option (List LootEntry))
    (ctx : MergeContext) (item : String) :
    resolvedChance (mergeLootTables biomeTable structureTable ctx) item =
      specResolvedChance c4AmendedSkip biomeTable structureTable ctx item := by
  have hbiome : ∀ bt : Option (List LootEntry),
      resolvedChance
          (match bt with
           | none => ([] : List (String × ℚ))
           | some t => t.foldl accumulateEntry []) item =
        (((bt.getD []).filter (fun e => (e.item = item : Bool))).map
          (·.chance)).sum := by
    intro bt
    cases bt with
    | none => simp [resolvedChance, jsMapGet]
    | some t =>
        rw [Option.getD_some]
        rw [resolvedChance_foldl_acc]
        simp [resolvedChance, jsMapGet]
  unfold mergeLootTables specResolvedChance
  cases structureTable with
  | none =>
      simp only [Option.getD_none, List.filter_nil, List.map_nil, List.sum_nil,
        add_zero]
      exact hbiome biomeTable
  | some st =>
      rw [Option.getD_some]
      rw [resolvedChance_foldl_skip (fun e => entrySkipped e ctx) st _ item]
      rw [hbiome biomeTable]
      congr 1
      have hfilter : st.filter (fun e => !(entrySkipped e ctx) &&
          (e.item = item : Bool)) =
          st.filter (fun e => (e.item = item : Bool) && !(c4AmendedSkip e ctx)) := by
        apply List.filter_congr
        intro e _
        rw [entrySkipped_eq_amended]
        exact Bool.and_comm _ _
      rw [hfilter]

/-- Counterexample for C4 as stated: the entry has a
`conditions.dimension` (the empty string) differing from the context's
dimension, so by the claim it would be skipped and `"x"` would resolve
to 0 — but the source's truthiness guard ignores an empty dimension
string, so the entry is merged and `"x"` resolves to 1. -/
theorem claim4_counterexample :
    c4OrigSkip entryEmptyDim ctxOverworld = true
    ∧ resolvedChance (mergeLootTables none (some [entryEmptyDim]) ctxOverworld)
        "x" = 1
    ∧ specResolvedChance c4OrigSkip none (some [entryEmptyDim]) ctxOverworld
        "x" = 0
    ∧ resolvedChance (mergeLootTables none (some [entryEmptyDim]) ctxOverworld)
        "x" ≠
      specResolvedChance c4OrigSkip none (some [entryEmptyDim]) ctxOverworld
        "x" := by
  have hskip : c4OrigSkip entryEmptyDim ctxOverworld = true := by decide
  have hmerge : resolvedChance
      (mergeLootTables none (some [entryEmptyDim]) ctxOverworld) "x" = 1 := by
    simp [mergeLootTables, entrySkipped, condSkip, entryEmptyDim, ctxOverworld,
      accumulateEntry, resolvedChance, jsMapGet, jsMapSet]
  have hspec : specResolvedChance c4OrigSkip none (some [entryEmptyDim])
      ctxOverworld "x" = 0 := by
    simp [specResolvedChance, c4OrigSkip, entryEmptyDim, ctxOverworld,
      List.filter_cons]
  exact ⟨hskip, hmerge, hspec, by rw [hmerge, hspec]; norm_num⟩

theorem jsMapGet_none_iff {α : Type} :
    ∀ (m : List (String × α)) (k : String),
      jsMapGet m k = none ↔ k ∉ m.map (·.1) := by
  intro m
  induction m with
  | nil => intro k; simp [jsMapGet]
  | cons p rest ih =>
      intro k
      obtain ⟨k', v⟩ := p
      by_cases h : k' = k
      · simp [jsMapGet, h]
      · simp [jsMapGet, h, ih, Ne.symm h]

theorem jsMapReplace_keys {α : Type} :
    ∀ (m : List (String × α)) (k : String) (v : α),
      (jsMapReplace m k v).map (·.1) = m.map (·.1) := by
  intro m
  induction m with
  | nil => intro k v; rfl
  | cons p rest ih =>
      intro k v
      obtain ⟨k₀, v₀⟩ := p
      by_cases h : k₀ = k
      · simp [jsMapReplace, h, ih]
      · simp [jsMapReplace, h, ih]

theorem lootMapKeyInv_set (m : List (String × LootEntry)) (e : LootEntry)
    (h1 : ∀ p ∈ m, p.1 = p.2.item) (h2 : (m.map (·.1)).Nodup) :
    (∀ p ∈ jsMapSet m e.item e, p.1 = p.2.item)
    ∧ ((jsMapSet m e.item e).map (·.1)).Nodup := by
  unfold jsMapSet
  by_cases hs : (jsMapGet m e.item).isSome
  · rw [if_pos hs]
    refine ⟨?_, ?_⟩
    · intro p hp
      rcases jsMapReplace_mem _ _ _ _ hp with h | h
      · rw [h]
      · exact h1 p h
    · rw [jsMapReplace_keys]
      exact h2
  · rw [if_neg hs]
    have hnot : e.item ∉ m.map (·.1) := by
      rw [← jsMapGet_none_iff]
      cases hh : jsMapGet m e.item
      · rfl
      · rw [hh] at hs; simp at hs
    refine ⟨?_, ?_⟩
    · intro p hp
      rcases List.mem_append.mp hp with h | h
      · exact h1 p h
      · simp at h
        rw [h]
    · rw [List.map_append]
      simp [List.nodup_append, h2, hnot]

theorem lootMapInv_mergeStep (m : List (String × LootEntry)) (e : LootEntry)
    (h1 : ∀ p ∈ m, p.1 = p.2.item) (h2 : (m.map (·.1)).Nodup) :
    (∀ p ∈ mergeLootStep m e, p.1 = p.2.item)
    ∧ ((mergeLootStep m e).map (·.1)).Nodup := by
  cases hg : jsMapGet m e.item with
  | none =>
      have hred : mergeLootStep m e = jsMapSet m e.item e := by
        unfold mergeLootStep
        rw [hg]
      rw [hred]
      exact lootMapKeyInv_set m e h1 h2
  | some prev =>
      have hred : mergeLootStep m e =
          if e.chance > prev.chance then jsMapSet m e.item e else m := by
        unfold mergeLootStep
        rw [hg]
      rw [hred]
      by_cases hc : e.chance > prev.chance
      · rw [if_pos hc]
        exact lootMapKeyInv_set m e h1 h2
      · rw [if_neg hc]
        exact ⟨h1, h2⟩

theorem buildLootMap_inv (l : List LootEntry) :
    (∀ p ∈ buildLootMap l, p.1 = p.2.item)
    ∧ ((buildLootMap l).map (·.1)).Nodup := by
  unfold buildLootMap
  refine foldl_preserve _
    (fun m : List (String × LootEntry) =>
      (∀ p ∈ m, p.1 = p.2.item) ∧ (m.map (·.1)).Nodup) ?_ _ _ ?_
  · intro m e hm
    unfold lootMapInsert
    exact lootMapKeyInv_set m e hm.1 hm.2
  · exact ⟨fun p hp => absurd hp (List.not_mem_nil p), by simp⟩

theorem mergeMap_inv (ex loot : List LootEntry) :
    (∀ p ∈ loot.foldl mergeLootStep (buildLootMap ex), p.1 = p.2.item)
    ∧ ((loot.foldl mergeLootStep (buildLootMap ex)).map (·.1)).Nodup := by
  refine foldl_preserve _
    (fun m : List (String × LootEntry) =>
      (∀ p ∈ m, p.1 = p.2.item) ∧ (m.map (·.1)).Nodup) ?_ _ _
    (buildLootMap_inv ex)
  intro m e hm
  exact lootMapInv_mergeStep m e hm.1 hm.2

theorem itemsNodup_cons_split {e : LootEntry} {rest : List LootEntry}
    (hn : itemsNodup (e :: rest)) :
    itemsNodup rest ∧ e.item ∉ rest.map (·.item) := by
  unfold itemsNodup at hn ⊢
  rw [List.map_cons, List.nodup_cons] at hn
  exact ⟨hn.2, hn.1⟩

theorem findItem_none_of_head (rest : List LootEntry) (e : LootEntry)
    (i : String) (hi : e.item = i) (hnot : e.item ∉ rest.map (·.item)) :
    findItem rest i = none := by
  unfold findItem
  apply List.find?_eq_none.2
  intro a ha
  simp only [decide_eq_true_eq]
  intro hai
  exact hnot (List.mem_map.mpr ⟨a, ha, hai.trans hi.symm⟩)

theorem foldl_lootMapInsert_get :
    ∀ (l : List LootEntry), itemsNodup l →
    ∀ (m₀ : List (String × LootEntry)) (i : String),
    jsMapGet (l.foldl lootMapInsert m₀) i = (findItem l i).or (jsMapGet m₀ i) := by
  intro l
  induction l with
  | nil => intro _ m₀ i; simp [findItem]
  | cons e rest ih =>
      intro hn m₀ i
      obtain ⟨hn', hnot⟩ := itemsNodup_cons_split hn
      simp only [List.foldl_cons]
      rw [ih hn']
      by_cases hi : e.item = i
      · rw [findItem_none_of_head rest e i hi hnot]
        have hset : jsMapGet (lootMapInsert m₀ e) i = some e := by
          unfold lootMapInsert
          rw [← hi]
          exact jsMapGet_set_self _ _ _
        have hfind : findItem (e :: rest) i = some e := by
          unfold findItem
          exact List.find?_cons_of_pos _ (by simp [hi])
        rw [hset, hfind]
        simp
      · have hfind : findItem (e :: rest) i = findItem rest i := by
          unfold findItem
          rw [List.find?_cons_of_neg _ (by simp [hi])]
        have hget : jsMapGet (lootMapInsert m₀ e) i = jsMapGet m₀ i := by
          unfold lootMapInsert
          exact jsMapGet_set_ne _ _ _ _ (fun hh => hi hh.symm)
        rw [hfind, hget]

theorem foldl_mergeLootStep_get :
    ∀ (l : List LootEntry), itemsNodup l →
    ∀ (m : List (String × LootEntry)) (i : String),
    jsMapGet (l.foldl mergeLootStep m) i =
      combineOpt (jsMapGet m i) (findItem l i) := by
  intro l
  induction l with
  | nil => intro _ m i; simp [findItem, combineOpt]
  | cons e rest ih =>
      intro hn m i
      obtain ⟨hn', hnot⟩ := itemsNodup_cons_split hn
      simp only [List.foldl_cons]
      rw [ih hn']
      by_cases hi : e.item = i
      · rw [findItem_none_of_head rest e i hi hnot]
        have hfind : findItem (e :: rest) i = some e := by
          unfold findItem
          exact List.find?_cons_of_pos _ (by simp [hi])
        rw [hfind]
        show jsMapGet (mergeLootStep m e) i = combineOpt (jsMapGet m i) (some e)
        subst hi
        cases hg : jsMapGet m e.item with
        | none =>
            have hred : mergeLootStep m e = jsMapSet m e.item e := by
              unfold mergeLootStep
              rw [hg]
            rw [hred, jsMapGet_set_self]
            simp [combineOpt, combineReg]
        | some prev =>
            have hred : mergeLootStep m e =
                if e.chance > prev.chance then jsMapSet m e.item e else m := by
              unfold mergeLootStep
              rw [hg]
            rw [hred]
            by_cases hc : e.chance > prev.chance
            · rw [if_pos hc, jsMapGet_set_self]
              simp [combineOpt, combineReg, hc]
            · rw [if_neg hc, hg]
              simp [combineOpt, combineReg, hc]
      · have hfind : findItem (e :: rest) i = findItem rest i := by
          unfold findItem
          rw [List.find?_cons_of_neg _ (by simp [hi])]
        have hget : jsMapGet (mergeLootStep m e) i = jsMapGet m i := by
          have hne : i ≠ e.item := fun hh => hi hh.symm
          cases hg : jsMapGet m e.item with
          | none =>
              have hred : mergeLootStep m e = jsMapSet m e.item e := by
                unfold mergeLootStep
                rw [hg]
              rw [hred]
              exact jsMapGet_set_ne _ _ _ _ hne
          | some prev =>
              have hred : mergeLootStep m e =
                  if e.chance > prev.chance then jsMapSet m e.item e else m := by
                unfold mergeLootStep
                rw [hg]
              rw [hred]
              by_cases hc : e.chance > prev.chance
              · rw [if_pos hc]
                exact jsMapGet_set_ne _ _ _ _ hne
              · rw [if_neg hc]
        rw [hfind, hget]

theorem findItem_map_values :
    ∀ (m : List (String × LootEntry)), (∀ p ∈ m, p.1 = p.2.item) →
    ∀ (i : String), findItem (m.map (·.2)) i = jsMapGet m i := by
  intro m
  induction m with
  | nil => intro _ i; simp [findItem, jsMapGet]
  | cons p rest ih =>
      intro h1 i
      have hp : p.1 = p.2.item := h1 p (List.mem_cons_self p rest)
      have h1' : ∀ q ∈ rest, q.1 = q.2.item :=
        fun q hq => h1 q (List.mem_cons_of_mem _ hq)
      by_cases hi : p.2.item = i
      · have hfind : findItem (p.2 :: rest.map (·.2)) i = some p.2 := by
          unfold findItem
          exact List.find?_cons_of_pos _ (by simp [hi])
        simp only [List.map_cons]
        rw [hfind]
        have hk : p.1 = i := hp.trans hi
        simp [jsMapGet, hk]
      · simp only [List.map_cons]
        have hfind : findItem (p.2 :: rest.map (·.2)) i =
            findItem (rest.map (·.2)) i := by
          unfold findItem
          rw [List.find?_cons_of_neg _ (by simp [hi])]
        rw [hfind]
        have hne : p.1 ≠ i := fun hh => hi (by rw [← hp]; exact hh)
        rw [show jsMapGet (p :: rest) i = jsMapGet rest i from by
          obtain ⟨k₀, v₀⟩ := p
          simp only [jsMapGet]
          rw [if_neg hne]]
        exact ih h1' i

theorem itemsNodup_values (m : List (String × LootEntry))
    (h1 : ∀ p ∈ m, p.1 = p.2.item) (h2 : (m.map (·.1)).Nodup) :
    itemsNodup (m.map (·.2)) := by
  unfold itemsNodup
  have hmap : (m.map (·.2)).map (·.item) = m.map (·.1) := by
    rw [List.map_map]
    exact List.map_congr_left (fun p hp => (h1 p hp).symm)
  rw [hmap]
  exact h2

theorem mergeRegisteredLoot_char (ex loot : List LootEntry)
    (hex : itemsNodup ex) (hl : itemsNodup loot) :
    itemsNodup (mergeRegisteredLoot ex loot)
    ∧ ∀ i, findItem (mergeRegisteredLoot ex loot) i =
        combineOpt (findItem ex i) (findItem loot i) := by
  have hinv := mergeMap_inv ex loot
  constructor
  · exact itemsNodup_values _ hinv.1 hinv.2
  · intro i
    unfold mergeRegisteredLoot
    rw [findItem_map_values _ hinv.1 i]
    rw [foldl_mergeLootStep_get loot hl _ i]
    congr 1
    unfold buildLootMap
    rw [foldl_lootMapInsert_get ex hex [] i]
    simp [jsMapGet]

theorem combineOpt_none_left (o : Option LootEntry) : combineOpt none o = o := by
  cases o <;> rfl

theorem regFold_aux_isSome : ∀ (es : List LootEntry) (e : LootEntry),
    (es.foldl combineReg (some e)).isSome = true := by
  intro es
  induction es with
  | nil => intro e; rfl
  | cons f rest ih =>
      intro e
      have hred : combineReg (some e) f =
          if f.chance > e.chance then some f else some e := rfl
      simp only [List.foldl_cons, hred]
      by_cases hc : f.chance > e.chance
      · rw [if_pos hc]
        exact ih f
      · rw [if_neg hc]
        exact ih e

theorem regFold_eq_none : ∀ (es : List LootEntry), regFold es = none → es = [] := by
  intro es h
  cases es with
  | nil => rfl
  | cons e rest =>
      exfalso
      unfold regFold at h
      simp only [List.foldl_cons] at h
      rw [show combineReg none e = some e from rfl] at h
      have hs := regFold_aux_isSome rest e
      rw [h] at hs
      simp at hs

theorem regFold_append_one (es : List LootEntry) (o : Option LootEntry) :
    regFold (es ++ o.toList) = combineOpt (regFold es) o := by
  cases o with
  | none => simp [combineOpt, Option.toList]
  | some f =>
      show regFold (es ++ [f]) = combineReg (regFold es) f
      unfold regFold
      rw [List.foldl_append]
      rfl

theorem callEntries_append_call (calls : List (String × List LootEntry))
    (c : String × List LootEntry) (id item : String) :
    callEntries (calls ++ [c]) id item =
      callEntries calls id item ++
        (if (c.1 = id : Bool) then (findItem c.2 item).toList else []) := by
  unfold callEntries
  rw [List.filter_append, List.filterMap_append]
  congr 1
  by_cases h : c.1 = id
  · have h1 : List.filter (fun c => (c.1 = id : Bool)) [c] = [c] := by simp [h]
    rw [h1]
    simp only [h, decide_True, if_true]
    cases hf : findItem c.2 item <;> simp [List.filterMap_cons, hf]
  · have h1 : List.filter (fun c => (c.1 = id : Bool)) [c] = [] := by simp [h]
    rw [h1]
    simp [h]

theorem registerLoot_sequence (id item : String) :
    ∀ (calls : List (String × List LootEntry)),
    (∀ c ∈ calls, itemsNodup c.2) →
    itemsNodup (storedLootTable (runStructureLootCalls calls) id)
    ∧ storedEntryFor (runStructureLootCalls calls) id item =
        regFold (callEntries calls id item) := by
  intro calls
  induction calls using List.reverseRecOn with
  | nil =>
      intro _
      constructor
      · simp [runStructureLootCalls, storedLootTable, jsMapGet, itemsNodup]
      · simp [runStructureLootCalls, storedEntryFor, storedLootTable, jsMapGet,
          findItem, callEntries, regFold]
  | append_singleton calls c ih =>
      intro hcalls
      have hc : itemsNodup c.2 := hcalls c (by simp)
      obtain ⟨ihN, ihE⟩ := ih (fun c' h => hcalls c' (by simp [h]))
      have hrun : runStructureLootCalls (calls ++ [c]) =
          registerStructureLoot (runStructureLootCalls calls) c.1 c.2 := by
        unfold runStructureLootCalls
        rw [List.foldl_append]
        rfl
      rw [hrun, callEntries_append_call]
      by_cases hid : c.1 = id
      · have hidb : ((c.1 = id : Bool)) = true := by simp [hid]
        rw [if_pos hidb]
        cases hget : jsMapGet (runStructureLootCalls calls) id with
        | none =>
            have hstored : storedLootTable (runStructureLootCalls calls) id = [] := by
              unfold storedLootTable
              rw [hget]
              rfl
            have hEntryOld :
                storedEntryFor (runStructureLootCalls calls) id item = none := by
              unfold storedEntryFor
              rw [hstored]
              rfl
            have hold : callEntries calls id item = [] :=
              regFold_eq_none _ (by rw [← ihE]; exact hEntryOld)
            have hreg : registerStructureLoot (runStructureLootCalls calls) c.1 c.2 =
                jsMapSet (runStructureLootCalls calls) c.1 c.2 := by
              unfold registerStructureLoot
              rw [show jsMapGet (runStructureLootCalls calls) c.1 = none from by
                rw [hid]; exact hget]
            have hstored' : storedLootTable
                (jsMapSet (runStructureLootCalls calls) c.1 c.2) id = c.2 := by
              unfold storedLootTable
              rw [hid, jsMapGet_set_self]
              rfl
            rw [hreg]
            constructor
            · rw [hstored']
              exact hc
            · unfold storedEntryFor
              rw [hstored', hold, List.nil_append]
              rw [show (findItem c.2 item).toList =
                ([] : List LootEntry) ++ (findItem c.2 item).toList from
                (List.nil_append _).symm]
              rw [regFold_append_one]
              rw [show regFold ([] : List LootEntry) = none from rfl]
              rw [combineOpt_none_left]
        | some ex =>
            have hstored : storedLootTable (runStructureLootCalls calls) id = ex := by
              unfold storedLootTable
              rw [hget]
              rfl
            have hexN : itemsNodup ex := hstored ▸ ihN
            obtain ⟨hmN, hmE⟩ := mergeRegisteredLoot_char ex c.2 hexN hc
            have hreg : registerStructureLoot (runStructureLootCalls calls) c.1 c.2 =
                jsMapSet (runStructureLootCalls calls) c.1
                  (mergeRegisteredLoot ex c.2) := by
              unfold registerStructureLoot
              rw [show jsMapGet (runStructureLootCalls calls) c.1 = some ex from by
                rw [hid]; exact hget]
            have hstored' : storedLootTable
                (jsMapSet (runStructureLootCalls calls) c.1
                  (mergeRegisteredLoot ex c.2)) id =
                mergeRegisteredLoot ex c.2 := by
              unfold storedLootTable
              rw [hid, jsMapGet_set_self]
              rfl
            rw [hreg]
            constructor
            · rw [hstored']
              exact hmN
            · unfold storedEntryFor
              rw [hstored', hmE item, regFold_append_one]
              congr 1
              rw [← ihE]
              unfold storedEntryFor
              rw [hstored]
      · have hidb : ((c.1 = id : Bool)) = false := by simp [hid]
        rw [if_neg (by simp [hidb]), List.append_nil]
        have hne : (id : String) ≠ c.1 := fun hh => hid hh.symm
        have hget' : jsMapGet
            (registerStructureLoot (runStructureLootCalls calls) c.1 c.2) id =
            jsMapGet (runStructureLootCalls calls) id := by
          cases hg : jsMapGet (runStructureLootCalls calls) c.1 with
          | none =>
              have hred : registerStructureLoot (runStructureLootCalls calls) c.1 c.2 =
                  jsMapSet (runStructureLootCalls calls) c.1 c.2 := by
                unfold registerStructureLoot
                rw [hg]
              rw [hred]
              exact jsMapGet_set_ne _ _ _ _ hne
          | some ex =>
              have hred : registerStructureLoot (runStructureLootCalls calls) c.1 c.2 =
                  jsMapSet (runStructureLootCalls calls) c.1
                    (mergeRegisteredLoot ex c.2) := by
                unfold registerStructureLoot
                rw [hg]
              rw [hred]
              exact jsMapGet_set_ne _ _ _ _ hne
        have hstoredEq : storedLootTable
            (registerStructureLoot (runStructureLootCalls calls) c.1 c.2) id =
            storedLootTable (runStructureLootCalls calls) id := by
          unfold storedLootTable
          rw [hget']
        constructor
        · rw [hstoredEq]
          exact ihN
        · rw [show storedEntryFor
              (registerStructureLoot (runStructureLootCalls calls) c.1 c.2) id item =
              storedEntryFor (runStructureLootCalls calls) id item from by
            unfold storedEntryFor
            rw [hstoredEq]]
          exact ihE

theorem regBiome_eq_regStructure : registerBiomeLoot = registerStructureLoot := rfl

theorem runBiome_eq_runStructure (calls : List (String × List LootEntry)) :
    runBiomeLootCalls calls = runStructureLootCalls calls := by
  unfold runBiomeLootCalls runStructureLootCalls
  rw [regBiome_eq_regStructure]

/-- C2 (amended): after any sequence of `registerStructureLoot` (or
`registerBiomeLoot`) calls, each of whose entry lists itself contains at
most one entry per item identifier, the stored table for an id has at
most one entry per item, and its entry for each item is the fold of the
keep-strictly-higher-chance rule over the entries registered for that
item in call order (so ties keep the existing entry and chances are
never summed: the stored entry is always one of the registered ones). -/
theorem claim2_register_best_chance (calls : List (String × List LootEntry))
    (hcalls : ∀ c ∈ calls, itemsNodup c.2) (id item : String) :
    (itemsNodup (storedLootTable (runStructureLootCalls calls) id)
     ∧ storedEntryFor (runStructureLootCalls calls) id item =
         regFold (callEntries calls id item))
    ∧ (itemsNodup (storedLootTable (runBiomeLootCalls calls) id)
     ∧ storedEntryFor (runBiomeLootCalls calls) id item =
         regFold (callEntries calls id item)) := by
  have h := registerLoot_sequence id item calls hcalls
  refine ⟨h, ?_⟩
  rw [runBiome_eq_runStructure]
  exact h

/-- Witness for C2 (amended): two calls for id `"s"`, item `"x"`, with
chances 1/5 then 1/2. -/
theorem claim2_register_best_chance_witness :
    (∀ c ∈ c2calls, itemsNodup c.2)
    ∧ ((itemsNodup (storedLootTable (runStructureLootCalls c2calls) "s")
       ∧ storedEntryFor (runStructureLootCalls c2calls) "s" "x" =
           regFold (callEntries c2calls "s" "x"))
     ∧ (itemsNodup (storedLootTable (runBiomeLootCalls c2calls) "s")
       ∧ storedEntryFor (runBiomeLootCalls c2calls) "s" "x" =
           regFold (callEntries c2calls "s" "x"))) :=
  ⟨by simp [c2calls, itemsNodup, entryX02, entryX05],
    claim2_register_best_chance c2calls
      (by simp [c2calls, itemsNodup, entryX02, entryX05]) "s" "x"⟩

/-- Counterexample for C2 as stated: the very first registration for an
id stores its entry list verbatim, so a single call whose list repeats
an item leaves two stored entries for that item — the claimed invariant
"at most one entry per item identifier" fails. -/
theorem claim2_counterexample :
    ((storedLootTable (registerStructureLoot [] "s" [entryX02, entryX05])
        "s").filter (fun e => (e.item = "x" : Bool))).length = 2 := by
  decide

end DoriosRPG
